import Mathlib

/-!
Verification of the mrpack-installer synchronization engine
(src/mrpack-installer.py) against its specification.

The Python source is shallowly embedded: pure helper methods become Lean
functions, filesystem listings become lists of named entries, byte strings
become lists of naturals, and the hash primitives are abstracted as function
parameters (the code only compares their hex-digest outputs for equality).
-/

namespace Mrpack

/-- Byte payloads, abstracted as lists of naturals. -/
abbrev Bytes := List Nat

/-- A JSON-style string dictionary (e.g. the `hashes` and `env` objects),
embedded as an association list. -/
abbrev Dict := List (String × String)

/-- Python `d.get(k)` / `k in d` on a string dict. -/
def dictGet (d : Dict) (k : String) : Option String :=
  match d.find? (fun p => p.1 == k) with
  | some p => some p.2
  | none => none

/-- Python truthiness of an `Optional[dict]`: `None` and `{}` are falsy. -/
def dictTruthy : Option Dict → Bool
  | none => false
  | some d => !d.isEmpty

/-- Python truthiness of an `Optional[int]`: `None` and `0` are falsy. -/
def optNatTruthy : Option Nat → Bool
  | none => false
  | some n => n != 0

/-- ASCII-wise lowering of a string's characters, embedding Python
`str.lower()` on the mod filenames and patterns. -/
def lowerChars (s : String) : List Char :=
  s.data.map Char.toLower

/-- Char-list prefix test (used to build the substring test below). -/
def prefixCheck : List Char → List Char → Bool
  | [], _ => true
  | _ :: _, [] => false
  | a :: n, b :: h => a == b && prefixCheck n h

/-- Char-list substring (contiguous) test: Python `needle in hay`. -/
def containsSub (needle : List Char) : List Char → Bool
  | [] => needle.isEmpty
  | c :: t => prefixCheck needle (c :: t) || containsSub needle t

/-- Python `pattern.lower() in filename.lower()`. -/
def lowerContains (filename pattern : String) : Bool :=
  containsSub (lowerChars pattern) (lowerChars filename)

/-- Python `s.startswith(pre)`. -/
def startsWithStr (s pre : String) : Bool :=
  prefixCheck pre.data s.data

/-- Python `s.endswith(suf)`. -/
def endsWithStr (s suf : String) : Bool :=
  prefixCheck suf.data.reverse s.data.reverse

/-- Index of the last `.` in a character list, if any
(Python `name.rfind('.')` restricted to a found result). -/
def lastDotIdx : List Char → Option Nat
  | [] => none
  | c :: rest =>
    match lastDotIdx rest with
    | some i => some (i + 1)
    | none => if c = '.' then some 0 else none

/-- `pathlib.PurePath.suffix` of a bare filename: the part from the last dot,
provided that dot is neither the first nor the last character. -/
def pathSuffix (name : String) : String :=
  let cs := name.data
  match lastDotIdx cs with
  | some i => if 0 < i ∧ i < cs.length - 1 then String.mk (cs.drop i) else ""
  | none => ""

/-- `pathlib.PurePath.name` of a relative path: its last nonempty
slash-separated component. -/
def splitOnSlash : List Char → List (List Char)
  | [] => [[]]
  | x :: xs =>
    let rest := splitOnSlash xs
    if x = '/' then [] :: rest
    else
      match rest with
      | [] => [[x]]
      | r :: rs => (x :: r) :: rs

/-- Python `Path(p).name`. -/
def pathBaseName (p : String) : String :=
  match ((splitOnSlash p.data).filter (fun seg => !seg.isEmpty)).getLast? with
  | some seg => String.mk seg
  | none => ""

/-- The configuration struct loaded from `config.yaml` (class `Config`). -/
structure Config where
  modpack_id : String
  instance_dir : String
  perm_user : Option String
  perm_group : Option String
  preserved_mods : List String
  client_only_mods : List String

/-- The `env` dict's `"server"` field, as consulted by the code
(`env.get("server")`, guarded by env truthiness which only matters for the
empty dict, where the lookup is `none` anyway). -/
def envServer : Option Dict → Option String
  | none => none
  | some d => dictGet d "server"

/-- `ModpackInstaller._is_client_only(filename, env)`: true when the env
marks the file `server: "unsupported"`, or when the filename
case-insensitively contains a configured `client_only_mods` pattern. -/
def is_client_only (cfg : Config) (filename : String) (env : Option Dict) : Bool :=
  if dictTruthy env && (envServer env == some "unsupported") then true
  else cfg.client_only_mods.any (fun pattern => lowerContains filename pattern)

/-- `ModpackInstaller._is_preserved(filename)`. -/
def is_preserved (cfg : Config) (filename : String) : Bool :=
  cfg.preserved_mods.any (fun pattern => lowerContains filename pattern)

/-- Outcome of `ModpackInstaller._download_file` once the transport has
delivered `data`: the returned boolean and the bytes written to the
destination (none when the function returns before `dest.write_bytes`). -/
structure DLResult where
  ok : Bool
  written : Option Bytes
deriving DecidableEq, Repr

/-- `ModpackInstaller._download_file(url, dest, expected_size, expected_hashes)`
after a successful transport that returned `data`. The two hash primitives
are abstracted as hex-digest functions `sha512fn` and `sha1fn`. Mirrors the
source: a truthy `expected_size` differing from `len(data)` fails first;
then, when the hash dict is truthy, a present `sha512` key is checked (the
`sha1` branch is an `elif`); only afterwards are the bytes written. -/
def download_file (sha512fn sha1fn : Bytes → String) (data : Bytes)
    (expected_size : Option Nat) (expected_hashes : Dict) : DLResult :=
  if optNatTruthy expected_size && (data.length != expected_size.getD 0) then
    { ok := false, written := none }
  else if !expected_hashes.isEmpty then
    match dictGet expected_hashes "sha512" with
    | some h =>
      if sha512fn data != h then { ok := false, written := none }
      else { ok := true, written := some data }
    | none =>
      match dictGet expected_hashes "sha1" with
      | some h =>
        if sha1fn data != h then { ok := false, written := none }
        else { ok := true, written := some data }
      | none => { ok := true, written := some data }
  else { ok := true, written := some data }

/-- A download task queued by `install`
(`(download_url, filename, file_size, file_hashes)`). -/
structure DTask where
  url : String
  filename : String
  size : Option Nat
  hashes : Dict
deriving DecidableEq

/-- The download fan-out/fan-in of `install` (lines 314-331): every queued
task yields one boolean outcome via `fetch`, tallied into
`(downloaded, failed)`. -/
def runDownloads (fetch : DTask → Bool) (tasks : List DTask) : Nat × Nat :=
  tasks.foldl (fun acc t => if fetch t then (acc.1 + 1, acc.2) else (acc.1, acc.2 + 1))
    (0, 0)

/-- A directory entry of a flat filesystem listing (`Path.iterdir()`). -/
structure Entry where
  name : String
  isFile : Bool
deriving DecidableEq, Repr

/-- `ModpackInstaller.clean_mods(keep_preserved)`: the mods directory is
`none` when it does not exist (the method returns at once); otherwise every
regular file with suffix `".jar"` is unlinked unless `keep_preserved` holds
and the name matches a preserved pattern. -/
def clean_mods (cfg : Config) (keep_preserved : Bool) (mods_dir : Option (List Entry)) :
    Option (List Entry) :=
  match mods_dir with
  | none => none
  | some entries =>
    some (entries.filter (fun f =>
      if f.isFile && (pathSuffix f.name == ".jar") then
        keep_preserved && is_preserved cfg f.name
      else true))

/-- One entry of the manifest's `files` array (`modrinth.index.json`). -/
structure FileEntry where
  path : String
  env : Option Dict
  downloads : List String
  fileSize : Option Nat
  hashes : Dict
deriving DecidableEq

/-- One iteration of the manifest-classification loop of `install`
(lines 290-311): an entry outside `mods/` is counted as other-skipped, a
client-only mod as client-skipped (the env dict is passed with Python's
`.get("env", {})` default), and the rest become download tasks. -/
def classifyStep (cfg : Config) (acc : List DTask × Nat × Nat) (fe : FileEntry) :
    List DTask × Nat × Nat :=
  if !startsWithStr fe.path "mods/" then (acc.1, acc.2.1, acc.2.2 + 1)
  else
    let filename := pathBaseName fe.path
    if is_client_only cfg filename (some (fe.env.getD [])) then
      (acc.1, acc.2.1 + 1, acc.2.2)
    else
      (acc.1 ++ [{ url := fe.downloads.headD "", filename := filename,
                   size := fe.fileSize, hashes := fe.hashes }],
       acc.2.1, acc.2.2)

/-- The manifest-classification loop of `install`. Returns
`(mods_to_download, skipped_client, skipped_other)`. -/
def processIndexFiles (cfg : Config) (files : List FileEntry) :
    List DTask × Nat × Nat :=
  files.foldl (classifyStep cfg) ([], 0, 0)

/-- The override-mods loop of `install` (lines 344-357): the names of the
`.jar` files of an override root's `mods/` listing that are copied into the
target mods directory (client-only ones are skipped; the env argument of
`_is_client_only` defaults to `None` on this path). -/
def overrideModsCopied (cfg : Config) (modsEntries : List Entry) : List String :=
  modsEntries.filterMap (fun mod_file =>
    if !mod_file.isFile || pathSuffix mod_file.name != ".jar" then none
    else if is_client_only cfg mod_file.name none then none
    else some mod_file.name)

/-- A filesystem node: a regular file with abstract content, or a directory
with named children. -/
inductive FSNode where
  | file (content : Bytes)
  | dir (children : List (String × FSNode))

/-- Whether a node is a directory (`Path.is_dir()`). -/
def isDirNode : FSNode → Bool
  | .dir _ => true
  | .file _ => false

/-- Lookup of a named child in a directory listing. -/
def fsLookup : List (String × FSNode) → String → Option FSNode
  | [], _ => none
  | p :: t, k => if p.1 == k then some p.2 else fsLookup t k

/-- `shutil.rmtree` / file removal of the entry named `k`. -/
def fsRemove (m : List (String × FSNode)) (k : String) : List (String × FSNode) :=
  m.filter (fun p => p.1 != k)

/-- One iteration of the non-mods override-copy loop of `install`
(lines 361-373): `mods` is skipped; a directory replaces any existing target
entry wholesale (`rmtree` then `copytree`); a file is overwritten in place
(`copy2`). -/
def copyOverrideItem (acc : List (String × FSNode)) (item : String × FSNode) :
    List (String × FSNode) :=
  if item.1 == "mods" then acc
  else if isDirNode item.2 then
    let acc2 := if (fsLookup acc item.1).isSome then fsRemove acc item.1 else acc
    acc2 ++ [item]
  else
    fsRemove acc item.1 ++ [item]

/-- The non-mods override-copy loop over one override root's entries,
threading the target instance directory's listing. -/
def mergeOverrideItems (target : List (String × FSNode))
    (items : List (String × FSNode)) : List (String × FSNode) :=
  items.foldl copyOverrideItem target

/-- Abstract environment of one `install` call: the registry response, the
persisted marker, and the outcomes of the fallible external effects. -/
structure InstallEnv where
  latest_id : String
  latest_version_number : String
  latest_file_names : List String
  installed : Option String
  mrpackFetchOk : Bool
  indexPresent : Bool
  indexFiles : List FileEntry
  fetch : DTask → Bool

/-- How one `install` call ended. -/
inductive SyncStatus where
  | upToDate
  | fatalNoArchive
  | fatalArchiveFetch
  | fatalNoIndex
  | completed
deriving DecidableEq, Repr

/-- Observable outcome of one `install` call: final status, final content of
the `.modpack_version` marker, which phases ran, and the summary counts. -/
structure InstallResult where
  status : SyncStatus
  versionFile : Option String
  syncStarted : Bool
  archiveFetchAttempted : Bool
  cleaned : Bool
  attemptedDownloads : Nat
  downloaded : Nat
  failed : Nat
deriving DecidableEq

/-- `ModpackInstaller.install(force)` (lines 230-392): the up-to-date
early return, the three fatal aborts (`sys.exit(1)`: no `.mrpack` artifact,
archive download failure, missing `modrinth.index.json`), and the completed
path that cleans, downloads, merges overrides and only then writes the
version marker (`_save_version`). -/
def install (cfg : Config) (env : InstallEnv) (force : Bool) : InstallResult :=
  if env.installed == some env.latest_id && !force then
    { status := .upToDate, versionFile := env.installed, syncStarted := false,
      archiveFetchAttempted := false, cleaned := false, attemptedDownloads := 0,
      downloaded := 0, failed := 0 }
  else
    match env.latest_file_names.find? (fun f => endsWithStr f ".mrpack") with
    | none =>
      { status := .fatalNoArchive, versionFile := env.installed, syncStarted := true,
        archiveFetchAttempted := false, cleaned := false, attemptedDownloads := 0,
        downloaded := 0, failed := 0 }
    | some _ =>
      if !env.mrpackFetchOk then
        { status := .fatalArchiveFetch, versionFile := env.installed, syncStarted := true,
          archiveFetchAttempted := true, cleaned := false, attemptedDownloads := 0,
          downloaded := 0, failed := 0 }
      else if !env.indexPresent then
        { status := .fatalNoIndex, versionFile := env.installed, syncStarted := true,
          archiveFetchAttempted := true, cleaned := false, attemptedDownloads := 0,
          downloaded := 0, failed := 0 }
      else
        let classified := processIndexFiles cfg env.indexFiles
        let counts := runDownloads env.fetch classified.1
        { status := .completed, versionFile := some env.latest_id, syncStarted := true,
          archiveFetchAttempted := true, cleaned := true,
          attemptedDownloads := classified.1.length,
          downloaded := counts.1, failed := counts.2 }

/-- What `main` does with a parsed command. -/
inductive Action where
  | checkVersions
  | runInstall (force : Bool)
deriving DecidableEq

/-- The command dispatch of `main` (lines 434-441): `check` inspects
versions, `install` and `update` call `install()`, and `force-update` calls
`install(force=True)`. -/
def mainAction (command : String) : Option Action :=
  if command == "check" then some Action.checkVersions
  else if command == "install" then some (Action.runInstall false)
  else if command == "update" then some (Action.runInstall false)
  else if command == "force-update" then some (Action.runInstall true)
  else none

/-! ## Helper lemmas -/

theorem prefixCheck_iff (n h : List Char) :
    prefixCheck n h = true ↔ ∃ r, h = n ++ r := by
  induction n generalizing h with
  | nil =>
    simp [prefixCheck]
  | cons a n ih =>
    cases h with
    | nil =>
      simp [prefixCheck]
    | cons b h2 =>
      simp only [prefixCheck, Bool.and_eq_true, beq_iff_eq, ih, List.cons_append,
        List.cons.injEq]
      constructor
      · rintro ⟨rfl, r, rfl⟩
        exact ⟨r, rfl, rfl⟩
      · rintro ⟨r, rfl, rfl⟩
        exact ⟨rfl, r, rfl⟩

theorem containsSub_iff (n h : List Char) :
    containsSub n h = true ↔ ∃ l r, h = l ++ n ++ r := by
  induction h with
  | nil =>
    simp only [containsSub, List.isEmpty_iff]
    constructor
    · rintro rfl
      exact ⟨[], [], rfl⟩
    · rintro ⟨l, r, hl⟩
      rcases List.append_eq_nil.mp (List.append_eq_nil.mp hl.symm).1 with ⟨-, h2⟩
      exact h2
  | cons c t ih =>
    simp only [containsSub, Bool.or_eq_true, prefixCheck_iff, ih]
    constructor
    · rintro (⟨r, hr⟩ | ⟨l, r, hr⟩)
      · exact ⟨[], r, by simpa using hr⟩
      · exact ⟨c :: l, r, by simp [hr]⟩
    · rintro ⟨l, r, hr⟩
      cases l with
      | nil =>
        exact Or.inl ⟨r, by simpa using hr⟩
      | cons x l2 =>
        rcases List.cons.injEq .. ▸ hr with ⟨-, h2⟩
        exact Or.inr ⟨l2, r, by simpa using h2⟩

theorem lowerContains_iff (filename pattern : String) :
    lowerContains filename pattern = true ↔
      ∃ l r, lowerChars filename = l ++ lowerChars pattern ++ r :=
  containsSub_iff (lowerChars pattern) (lowerChars filename)

theorem dictGet_ne_nil {d : Dict} {k v : String} (h : dictGet d k = some v) :
    d.isEmpty = false := by
  cases d with
  | nil => simp [dictGet] at h
  | cons p t => rfl

/-! ## C4: the client-only decision -/

/-- The client-only predicate as the spec words it (§4.2): true iff the
runtime tag marks the file unsupported on the server, or the filename
case-insensitively contains a configured client-only pattern. The spec's
composite tag `unsupported-on-server` is carried on the wire as the manifest
`env` field `server` having the value `"unsupported"` (spec §6). -/
def isClientOnlySpec (cfg : Config) (filename : String) (serverTag : Option String) : Prop :=
  serverTag = some "unsupported" ∨
    ∃ p ∈ cfg.client_only_mods, ∃ l r, lowerChars filename = l ++ lowerChars p ++ r

/-- C4. Client-only decision: for every filename and runtime tag, the
client-only predicate returns true iff the tag marks the file unsupported on
the server or the filename case-insensitively contains at least one
configured client-only pattern, and false otherwise. -/
theorem client_only_decision (cfg : Config) (filename : String) (env : Option Dict) :
    is_client_only cfg filename env = true ↔
      isClientOnlySpec cfg filename (envServer env) := by
  unfold is_client_only isClientOnlySpec
  by_cases hc : (dictTruthy env && (envServer env == some "unsupported")) = true
  · rw [if_pos hc]
    simp only [Bool.and_eq_true, beq_iff_eq] at hc
    simp [hc.2]
  · rw [if_neg hc]
    have hserv : ¬ envServer env = some "unsupported" := by
      intro he
      apply hc
      have htru : dictTruthy env = true := by
        cases env with
        | none => simp [envServer] at he
        | some d =>
          have : d.isEmpty = false := dictGet_ne_nil (by simpa [envServer] using he)
          simp [dictTruthy, this]
      simp [htru, he]
    simp only [hserv, false_or]
    rw [List.any_eq_true]
    constructor
    · rintro ⟨p, hp, hcont⟩
      exact ⟨p, hp, (lowerContains_iff _ _).mp hcont⟩
    · rintro ⟨p, hp, hinf⟩
      exact ⟨p, hp, (lowerContains_iff _ _).mpr hinf⟩

/-! ## C1: filtering symmetry -/

theorem pattern_client_only (cfg : Config) (fname : String)
    (hpat : ∃ p ∈ cfg.client_only_mods, lowerContains fname p = true)
    (env : Option Dict) : is_client_only cfg fname env = true := by
  unfold is_client_only
  split
  · rfl
  · exact List.any_eq_true.mpr hpat

theorem classify_tasks_aux (cfg : Config) (files : List FileEntry) :
    ∀ (acc : List DTask × Nat × Nat) (t : DTask),
      t ∈ (files.foldl (classifyStep cfg) acc).1 →
      t ∈ acc.1 ∨ ∃ fe ∈ files,
        t.filename = pathBaseName fe.path ∧
        is_client_only cfg t.filename (some (fe.env.getD [])) = false := by
  induction files with
  | nil =>
    intro acc t ht
    exact Or.inl ht
  | cons fe fs ih =>
    intro acc t ht
    rw [List.foldl_cons] at ht
    rcases ih _ t ht with hacc | ⟨fe2, h2, h3⟩
    · unfold classifyStep at hacc
      split at hacc
      · exact Or.inl hacc
      · dsimp only at hacc
        split at hacc
        · exact Or.inl hacc
        · next hco =>
          rcases List.mem_append.mp hacc with h | h
          · exact Or.inl h
          · simp only [List.mem_singleton] at h
            subst h
            exact Or.inr ⟨fe, List.mem_cons_self fe fs, rfl, by simpa using hco⟩
    · exact Or.inr ⟨fe2, List.mem_cons_of_mem fe h2, h3⟩

/-- C1. Filtering symmetry: a filename that case-insensitively contains a
configured `client_only_mods` pattern is never queued as a manifest download
task and is never copied from an override root's `mods/` listing, because
both paths consult `_is_client_only` on the filename. -/
theorem filtering_symmetry (cfg : Config) (fname : String)
    (files : List FileEntry) (entries : List Entry)
    (hpat : ∃ p ∈ cfg.client_only_mods, lowerContains fname p = true) :
    (∀ t ∈ (processIndexFiles cfg files).1, t.filename ≠ fname) ∧
    fname ∉ overrideModsCopied cfg entries := by
  constructor
  · intro t ht heq
    rcases classify_tasks_aux cfg files ([], 0, 0) t ht with h | ⟨fe, -, -, hfalse⟩
    · exact absurd h (List.not_mem_nil t)
    · rw [heq] at hfalse
      rw [pattern_client_only cfg fname hpat _] at hfalse
      exact absurd hfalse (by decide)
  · intro hmem
    rcases List.mem_filterMap.mp hmem with ⟨e, he, hsome⟩
    split at hsome
    · exact Option.noConfusion hsome
    · split at hsome
      · exact Option.noConfusion hsome
      · next hco =>
        have hname : e.name = fname := Option.some.inj hsome
        rw [hname] at hco
        exact hco (pattern_client_only cfg fname hpat none)

/-! ## C7 and C10: the clean step -/

/-- C7. Clean preservation: an entry of the mods directory whose name
case-insensitively contains a configured `preserved_mods` pattern, or that is
the `user/` subdirectory, survives the clean step (which `install` runs with
`keep_preserved=True`). -/
theorem clean_preservation (cfg : Config) (entries : List Entry) (e : Entry)
    (he : e ∈ entries)
    (hkeep : is_preserved cfg e.name = true ∨ (e.name = "user" ∧ e.isFile = false)) :
    e ∈ (clean_mods cfg true (some entries)).getD [] := by
  simp only [clean_mods, Option.getD_some]
  apply List.mem_filter.mpr
  refine ⟨he, ?_⟩
  rcases hkeep with hp | ⟨-, hdir⟩
  · split
    · simp [hp]
    · rfl
  · simp [hdir]

/-- C10. Clean touches only top-level regular `.jar` files: a missing mods
directory makes clean a no-op; clean only ever removes entries (the result
is a sublist of the input); and every entry that is not a regular file with
the exact (case-sensitive) `".jar"` suffix — in particular every
subdirectory — is still present afterwards. -/
theorem clean_frame (cfg : Config) (kp : Bool) (entries : List Entry) (e : Entry)
    (he : e ∈ entries) (hnot : e.isFile = false ∨ pathSuffix e.name ≠ ".jar") :
    clean_mods cfg kp none = none ∧
    ((clean_mods cfg kp (some entries)).getD []).Sublist entries ∧
    e ∈ (clean_mods cfg kp (some entries)).getD [] := by
  refine ⟨rfl, ?_, ?_⟩
  · simp only [clean_mods, Option.getD_some]
    exact List.filter_sublist _
  · simp only [clean_mods, Option.getD_some]
    apply List.mem_filter.mpr
    refine ⟨he, ?_⟩
    rcases hnot with h | h
    · simp [h]
    · have hb : (pathSuffix e.name == ".jar") = false := by
        simpa using h
      simp [hb]

/-! ## C5: batch completeness -/

theorem runDownloads_aux (fetch : DTask → Bool) (tasks : List DTask) :
    ∀ a b : Nat,
      tasks.foldl
        (fun acc t => if fetch t then (acc.1 + 1, acc.2) else (acc.1, acc.2 + 1)) (a, b) =
      (a + tasks.countP (fun t => fetch t), b + tasks.countP (fun t => !fetch t)) := by
  induction tasks with
  | nil =>
    intro a b
    simp
  | cons t ts ih =>
    intro a b
    rw [List.foldl_cons]
    by_cases h : fetch t = true
    · rw [if_pos h, ih]
      simp [List.countP_cons, h, Prod.ext_iff]
      all_goals omega
    · rw [if_neg h, ih]
      have hf : fetch t = false := by
        simpa using h
      simp [List.countP_cons, hf, Prod.ext_iff]
      all_goals omega

theorem countP_toggle_sum (fetch : DTask → Bool) (tasks : List DTask) :
    tasks.countP (fun t => fetch t) + tasks.countP (fun t => !fetch t) = tasks.length := by
  induction tasks with
  | nil => rfl
  | cons t ts ih =>
    simp only [List.countP_cons, List.length_cons]
    by_cases h : fetch t = true <;> simp [h] <;> omega

/-- C5. Batch completeness: over any batch of queued download tasks the
tallied counts satisfy `downloaded + failed = N`; every task contributes
exactly one boolean outcome (`downloaded` counts the successes and `failed`
the failures), so no task is dropped and one failure never stops the rest
from being counted. -/
theorem batch_completeness (fetch : DTask → Bool) (tasks : List DTask) :
    (runDownloads fetch tasks).1 + (runDownloads fetch tasks).2 = tasks.length ∧
    (runDownloads fetch tasks).1 = tasks.countP (fun t => fetch t) ∧
    (runDownloads fetch tasks).2 = tasks.countP (fun t => !fetch t) := by
  unfold runDownloads
  rw [runDownloads_aux fetch tasks 0 0]
  refine ⟨?_, by simp, by simp⟩
  simpa using countP_toggle_sum fetch tasks

/-! ## C2 and C3: verified fetching -/

theorem dl_failed_counted (fetch : DTask → Bool) (tasks : List DTask) (t : DTask)
    (hmem : t ∈ tasks) (hf : fetch t = false) :
    1 ≤ (runDownloads fetch tasks).2 := by
  unfold runDownloads
  rw [runDownloads_aux fetch tasks 0 0]
  have hpos : 0 < tasks.countP (fun t => !fetch t) :=
    List.countP_pos_iff.mpr ⟨t, hmem, by simp [hf]⟩
  simpa using hpos

/-- C2. Hash verification: when the expected hash set contains a `sha512`
digest, that digest is the one checked (the result never depends on the sha1
primitive), and when the computed sha512 digest differs from the expected one
the fetch returns failure and writes nothing; a task with a failed fetch
outcome contributes to the batch's failure count. -/
theorem sha512_precedence (sha512fn sha1fn sha1fn2 : Bytes → String) (data : Bytes)
    (sz : Option Nat) (hashes : Dict) (hx : String)
    (hsha : dictGet hashes "sha512" = some hx) :
    download_file sha512fn sha1fn data sz hashes =
      download_file sha512fn sha1fn2 data sz hashes ∧
    (sha512fn data ≠ hx →
      download_file sha512fn sha1fn data sz hashes = { ok := false, written := none } ∧
      ∀ (fetch : DTask → Bool) (tasks : List DTask) (t : DTask),
        t ∈ tasks → fetch t = (download_file sha512fn sha1fn data sz hashes).ok →
        1 ≤ (runDownloads fetch tasks).2) := by
  have hne : (!hashes.isEmpty) = true := by
    rw [dictGet_ne_nil hsha]
    rfl
  by_cases hsz : (optNatTruthy sz && (data.length != sz.getD 0)) = true
  · have hred : ∀ g : Bytes → String,
        download_file sha512fn g data sz hashes = { ok := false, written := none } := by
      intro g
      unfold download_file
      rw [if_pos hsz]
    refine ⟨by rw [hred, hred], ?_⟩
    intro hmm
    refine ⟨hred _, ?_⟩
    intro fetch tasks t hmemb hft
    refine dl_failed_counted fetch tasks t hmemb ?_
    rw [hft, hred]
  · have hred : ∀ g : Bytes → String,
        download_file sha512fn g data sz hashes =
          (if sha512fn data != hx then { ok := false, written := none }
           else { ok := true, written := some data } : DLResult) := by
      intro g
      unfold download_file
      rw [if_neg hsz, if_pos hne, hsha]
    refine ⟨by rw [hred, hred], ?_⟩
    intro hmm
    have hbne : (sha512fn data != hx) = true := by
      simpa [bne_iff_ne] using hmm
    have hfin : download_file sha512fn sha1fn data sz hashes =
        { ok := false, written := none } := by
      rw [hred, if_pos hbne]
    refine ⟨hfin, ?_⟩
    intro fetch tasks t hmemb hft
    refine dl_failed_counted fetch tasks t hmemb ?_
    rw [hft, hfin]

/-- C3 counterexample: the size check uses Python truthiness, so a declared
size of 0 disables it: a 1-byte payload whose length differs from the
expected size 0 is nevertheless accepted and written. -/
theorem size_zero_counterexample :
    ([0] : Bytes).length ≠ 0 ∧
    download_file (fun _ => "") (fun _ => "") [0] (some 0) [] =
      { ok := true, written := some [0] } :=
  ⟨by decide, rfl⟩

/-- C3 (amended). Size verification: for every fetch invoked with a nonzero
expected size, if the retrieved payload's length differs from the expected
size, the fetch fails and nothing is written; an expected size of 0 is falsy
in the source and disables the check. -/
theorem size_mismatch_rejected (sha512fn sha1fn : Bytes → String) (data : Bytes)
    (n : Nat) (hashes : Dict) (hn : n ≠ 0) (hlen : data.length ≠ n) :
    download_file sha512fn sha1fn data (some n) hashes =
      { ok := false, written := none } := by
  unfold download_file
  have hc : (optNatTruthy (some n) && (data.length != (some n : Option Nat).getD 0)) = true := by
    simp [optNatTruthy, Bool.and_eq_true, bne_iff_ne, hn, hlen]
  rw [if_pos hc]

/-! ## C8: override directory replacement -/

theorem fsRemove_no_key (m : List (String × FSNode)) (k : String) :
    ∀ p ∈ fsRemove m k, p.1 ≠ k := by
  intro p hp
  have hmem := List.mem_filter.mp hp
  simpa [bne_iff_ne] using hmem.2

theorem fsLookup_eq_none_keys {m : List (String × FSNode)} {n : String}
    (h : fsLookup m n = none) : ∀ p ∈ m, p.1 ≠ n := by
  induction m with
  | nil =>
    intro p hp
    exact absurd hp (List.not_mem_nil p)
  | cons q t ih =>
    intro p hp
    by_cases hq : (q.1 == n) = true
    · rw [fsLookup, if_pos hq] at h
      exact Option.noConfusion h
    · rw [fsLookup, if_neg hq] at h
      rcases List.mem_cons.mp hp with rfl | hp2
      · simpa [beq_iff_eq] using hq
      · exact ih h p hp2

theorem fsLookup_append_last (m : List (String × FSNode)) (k : String) (v : FSNode)
    (h : ∀ p ∈ m, p.1 ≠ k) : fsLookup (m ++ [(k, v)]) k = some v := by
  induction m with
  | nil => simp [fsLookup]
  | cons p t ih =>
    have hp : p.1 ≠ k := h p (List.mem_cons_self p t)
    have hb : (p.1 == k) = false := by
      simpa using hp
    rw [List.cons_append, fsLookup, hb]
    exact ih fun q hq => h q (List.mem_cons_of_mem p hq)

theorem fsLookup_append_single_ne (m : List (String × FSNode)) (k n : String) (v : FSNode)
    (hk : k ≠ n) : fsLookup (m ++ [(k, v)]) n = fsLookup m n := by
  induction m with
  | nil =>
    have hb : (k == n) = false := by
      simpa using hk
    simp [fsLookup, hb]
  | cons p t ih =>
    by_cases hp : (p.1 == n) = true
    · rw [List.cons_append, fsLookup, if_pos hp, fsLookup, if_pos hp]
    · rw [List.cons_append, fsLookup, if_neg hp, fsLookup, if_neg hp]
      exact ih

theorem fsLookup_remove_ne (m : List (String × FSNode)) (k n : String) (hk : k ≠ n) :
    fsLookup (fsRemove m k) n = fsLookup m n := by
  induction m with
  | nil => rfl
  | cons p t ih =>
    simp only [fsRemove] at ih
    by_cases hpn : (p.1 == n) = true
    · have hp1 : p.1 = n := by
        simpa using hpn
      have hpk : (p.1 != k) = true := by
        simp [bne_iff_ne, hp1, Ne.symm hk]
      simp [fsRemove, List.filter_cons, hpk, fsLookup, hpn]
    · by_cases hpk : (p.1 != k) = true
      · simp [fsRemove, List.filter_cons, hpk, fsLookup, hpn, ih]
      · simp [fsRemove, List.filter_cons, hpk, fsLookup, hpn, ih]

theorem copyOverrideItem_preserves (acc : List (String × FSNode))
    (item : String × FSNode) (n : String) (hne : item.1 ≠ n) :
    fsLookup (copyOverrideItem acc item) n = fsLookup acc n := by
  unfold copyOverrideItem
  split
  · rfl
  · split
    · dsimp only
      rw [fsLookup_append_single_ne _ _ _ _ hne]
      split
      · exact fsLookup_remove_ne acc item.1 n hne
      · rfl
    · rw [fsLookup_append_single_ne _ _ _ _ hne]
      exact fsLookup_remove_ne acc item.1 n hne

theorem mergeOverrideItems_preserves (post : List (String × FSNode))
    (n : String) (hpost : ∀ q ∈ post, q.1 ≠ n) :
    ∀ acc, fsLookup (mergeOverrideItems acc post) n = fsLookup acc n := by
  induction post with
  | nil =>
    intro acc
    rfl
  | cons q t ih =>
    intro acc
    unfold mergeOverrideItems at ih ⊢
    rw [List.foldl_cons]
    rw [ih fun p hp => hpost p (List.mem_cons_of_mem q hp)]
    exact copyOverrideItem_preserves acc q n (hpost q (List.mem_cons_self q t))

/-- C8. Override directory replacement: when an override root supplies a
non-`mods` directory entry, the loop removes any existing same-named target
directory and copies the override directory wholesale, so afterwards the
target maps that name to exactly the override directory's contents,
regardless of what the target held before. -/
theorem override_dir_replacement (target pre post : List (String × FSNode))
    (n : String) (T : List (String × FSNode))
    (hn : n ≠ "mods") (hpost : ∀ q ∈ post, q.1 ≠ n) :
    fsLookup (mergeOverrideItems target (pre ++ (n, FSNode.dir T) :: post)) n =
      some (FSNode.dir T) := by
  unfold mergeOverrideItems
  rw [List.foldl_append, List.foldl_cons]
  have hstep : fsLookup
      (copyOverrideItem (List.foldl copyOverrideItem target pre) (n, FSNode.dir T)) n =
      some (FSNode.dir T) := by
    set s := List.foldl copyOverrideItem target pre with hs
    unfold copyOverrideItem
    have hb : (n == "mods") = false := by
      simpa using hn
    rw [hb]
    dsimp only [isDirNode]
    rw [if_neg (by simp)]
    by_cases hsome : (fsLookup s n).isSome = true
    · rw [if_pos hsome]
      exact fsLookup_append_last _ _ _ (fsRemove_no_key s n)
    · rw [if_neg hsome]
      have hkeys : ∀ p ∈ s, p.1 ≠ n :=
        fsLookup_eq_none_keys (Option.not_isSome_iff_eq_none.mp hsome)
      exact fsLookup_append_last _ _ _ hkeys
  calc fsLookup (List.foldl copyOverrideItem
          (copyOverrideItem (List.foldl copyOverrideItem target pre) (n, FSNode.dir T)) post) n
      = fsLookup (copyOverrideItem (List.foldl copyOverrideItem target pre) (n, FSNode.dir T)) n :=
        mergeOverrideItems_preserves post n hpost _
    _ = some (FSNode.dir T) := hstep

/-! ## C6 and C9: orchestration and state commit -/

/-- C6. Installed-state commit: the version marker is written (with the
latest id) exactly on the completed path, after the download and
override-merge phases; every fatal abort (no `.mrpack` artifact, archive
download failure, missing manifest index) leaves the marker unchanged; and
whenever the guard and the three fatal gates pass, the sync completes and
commits regardless of the per-file download outcomes (`env.fetch` is
unconstrained), so `failed > 0` never blocks the commit. -/
theorem installed_state_commit (cfg : Config) (env : InstallEnv) (force : Bool) :
    ((install cfg env force).status = SyncStatus.completed →
      (install cfg env force).versionFile = some env.latest_id) ∧
    ((install cfg env force).status = SyncStatus.fatalNoArchive ∨
     (install cfg env force).status = SyncStatus.fatalArchiveFetch ∨
     (install cfg env force).status = SyncStatus.fatalNoIndex →
      (install cfg env force).versionFile = env.installed) ∧
    ((env.installed == some env.latest_id && !force) = false →
      env.latest_file_names.find? (fun f => endsWithStr f ".mrpack") ≠ none →
      env.mrpackFetchOk = true →
      env.indexPresent = true →
      (install cfg env force).status = SyncStatus.completed ∧
      (install cfg env force).versionFile = some env.latest_id) := by
  unfold install
  split
  · next hg =>
    refine ⟨fun h => SyncStatus.noConfusion h, fun _ => rfl, fun hf _ _ _ => ?_⟩
    rw [hg] at hf
    exact absurd hf (by decide)
  · split
    · next heq =>
      refine ⟨fun h => SyncStatus.noConfusion h, fun _ => rfl, fun _ hfind _ _ => ?_⟩
      exact absurd heq hfind
    · split
      · next hnf =>
        refine ⟨fun h => SyncStatus.noConfusion h, fun _ => rfl, fun _ _ hok _ => ?_⟩
        rw [hok] at hnf
        exact absurd hnf (by decide)
      · split
        · next hni =>
          refine ⟨fun h => SyncStatus.noConfusion h, fun _ => rfl, fun _ _ _ hidx => ?_⟩
          rw [hidx] at hni
          exact absurd hni (by decide)
        · refine ⟨fun _ => rfl, fun h => ?_, fun _ _ _ _ => ⟨rfl, rfl⟩⟩
          rcases h with h | h | h <;> exact SyncStatus.noConfusion h

/-- C9. Up-to-date no-op: without force, when the persisted version equals
the latest id, `install` reports up to date and mutates nothing (no archive
fetch, no cleaning, zero downloads attempted, marker unchanged); with force
the full sync proceeds regardless of the installed state, and `main` maps
the `force-update` command to `install(force=True)`. -/
theorem up_to_date_noop (cfg : Config) (env : InstallEnv)
    (hup : env.installed = some env.latest_id) :
    install cfg env false =
      { status := SyncStatus.upToDate, versionFile := env.installed,
        syncStarted := false, archiveFetchAttempted := false, cleaned := false,
        attemptedDownloads := 0, downloaded := 0, failed := 0 } ∧
    (install cfg env true).syncStarted = true ∧
    (install cfg env true).status ≠ SyncStatus.upToDate ∧
    mainAction "force-update" = some (Action.runInstall true) := by
  refine ⟨?_, ?_, ?_, by decide⟩
  · unfold install
    have hg : (env.installed == some env.latest_id && !false) = true := by
      simp [hup]
    rw [if_pos hg]
  · unfold install
    rw [if_neg (by simp)]
    split
    · rfl
    · split
      · rfl
      · split
        · rfl
        · rfl
  · unfold install
    rw [if_neg (by simp)]
    split
    · exact fun h => SyncStatus.noConfusion h
    · split
      · exact fun h => SyncStatus.noConfusion h
      · split
        · exact fun h => SyncStatus.noConfusion h
        · exact fun h => SyncStatus.noConfusion h

/-! ## Concrete evaluation fixtures -/

/-- A concrete configuration for evaluating the theorems. -/
def cfgA : Config :=
  { modpack_id := "some-pack", instance_dir := "/srv/mc",
    perm_user := none, perm_group := none,
    preserved_mods := ["map"], client_only_mods := ["opti"] }

/-- A concrete manifest file list. -/
def filesA : List FileEntry :=
  [{ path := "mods/OptiFine.jar", env := none, downloads := ["u1"],
     fileSize := none, hashes := [] },
   { path := "mods/sodium.jar", env := none, downloads := ["u2"],
     fileSize := some 3, hashes := [("sha512", "aa")] },
   { path := "resourcepacks/pack.zip", env := none, downloads := ["u3"],
     fileSize := none, hashes := [] }]

/-- A concrete mods-directory listing. -/
def modsListA : List Entry :=
  [⟨"OptiFine.jar", true⟩, ⟨"JustMap.jar", true⟩, ⟨"user", false⟩,
   ⟨"B.JAR", true⟩, ⟨"readme.txt", true⟩, ⟨"old.jar", true⟩]

/-- A concrete install environment: a new version is available and every
individual download fails. -/
def envA : InstallEnv :=
  { latest_id := "v2", latest_version_number := "1.1.0",
    latest_file_names := ["pack.mrpack"], installed := some "v1",
    mrpackFetchOk := true, indexPresent := true,
    indexFiles := filesA, fetch := fun _ => false }

/-- The same environment with the latest version already installed. -/
def envUpA : InstallEnv :=
  { latest_id := "v2", latest_version_number := "1.1.0",
    latest_file_names := ["pack.mrpack"], installed := some "v2",
    mrpackFetchOk := true, indexPresent := true,
    indexFiles := filesA, fetch := fun _ => false }

/-! ## Witnesses -/

/-- Witness for C1: `OptiFine.jar` matches the configured pattern `opti` and
is excluded from both the manifest queue and the override copy list. -/
theorem filtering_symmetry_witness :
    (∃ p ∈ cfgA.client_only_mods, lowerContains "OptiFine.jar" p = true) ∧
    (∀ t ∈ (processIndexFiles cfgA filesA).1, t.filename ≠ "OptiFine.jar") ∧
    "OptiFine.jar" ∉ overrideModsCopied cfgA modsListA :=
  ⟨by decide,
   (filtering_symmetry cfgA "OptiFine.jar" filesA modsListA (by decide)).1,
   (filtering_symmetry cfgA "OptiFine.jar" filesA modsListA (by decide)).2⟩

/-- Witness for C2: with both digests declared, only the sha512 one decides,
and a mismatch yields failure without a write. -/
theorem sha512_precedence_witness :
    dictGet [("sha1", "bb"), ("sha512", "aa")] "sha512" = some "aa" ∧
    download_file (fun _ => "cc") (fun _ => "bb") [7] none
        [("sha1", "bb"), ("sha512", "aa")] =
      download_file (fun _ => "cc") (fun _ => "dd") [7] none
        [("sha1", "bb"), ("sha512", "aa")] ∧
    download_file (fun _ => "cc") (fun _ => "bb") [7] none
        [("sha1", "bb"), ("sha512", "aa")] = { ok := false, written := none } :=
  ⟨by decide,
   (sha512_precedence (fun _ => "cc") (fun _ => "bb") (fun _ => "dd") [7] none
      [("sha1", "bb"), ("sha512", "aa")] "aa" (by decide)).1,
   ((sha512_precedence (fun _ => "cc") (fun _ => "bb") (fun _ => "dd") [7] none
      [("sha1", "bb"), ("sha512", "aa")] "aa" (by decide)).2 (by decide)).1⟩

/-- Witness for C3 (amended): a nonzero declared size rejects a payload of a
different length without writing. -/
theorem size_mismatch_rejected_witness :
    (1 : Nat) ≠ 0 ∧ ([] : Bytes).length ≠ 1 ∧
    download_file (fun _ => "") (fun _ => "") [] (some 1) [] =
      { ok := false, written := none } :=
  ⟨by decide, by decide,
   size_mismatch_rejected (fun _ => "") (fun _ => "") [] 1 [] (by decide) (by decide)⟩

/-- Witness for C6: a sync whose only queued download fails still completes
and commits the new version id. -/
theorem installed_state_commit_witness :
    (envA.installed == some envA.latest_id && !false) = false ∧
    (install cfgA envA false).status = SyncStatus.completed ∧
    (install cfgA envA false).versionFile = some "v2" ∧
    (install cfgA envA false).failed = 1 :=
  ⟨by decide,
   ((installed_state_commit cfgA envA false).2.2 (by decide) (by decide) rfl rfl).1,
   ((installed_state_commit cfgA envA false).2.2 (by decide) (by decide) rfl rfl).2,
   rfl⟩

/-- Witness for C7: a preserved-pattern file survives the clean step. -/
theorem clean_preservation_witness :
    (⟨"JustMap.jar", true⟩ : Entry) ∈ modsListA ∧
    is_preserved cfgA "JustMap.jar" = true ∧
    (⟨"JustMap.jar", true⟩ : Entry) ∈ (clean_mods cfgA true (some modsListA)).getD [] :=
  ⟨by decide, by decide,
   clean_preservation cfgA modsListA ⟨"JustMap.jar", true⟩ (by decide)
     (Or.inl (by decide))⟩

/-- Witness for C8: an override `config` directory replaces the pre-existing
target `config` directory wholesale. -/
theorem override_dir_replacement_witness :
    ("config" : String) ≠ "mods" ∧
    fsLookup (mergeOverrideItems
        [("config", FSNode.dir [("old.txt", FSNode.file [1])])]
        [("config", FSNode.dir [("new.txt", FSNode.file [2])])]) "config" =
      some (FSNode.dir [("new.txt", FSNode.file [2])]) :=
  ⟨by decide,
   override_dir_replacement [("config", FSNode.dir [("old.txt", FSNode.file [1])])]
     [] [] "config" [("new.txt", FSNode.file [2])] (by decide)
     (fun q hq => absurd hq (List.not_mem_nil q))⟩

/-- Witness for C9: with the latest version installed, `install` without
force is the reported no-op, and with force the sync still starts. -/
theorem up_to_date_noop_witness :
    envUpA.installed = some envUpA.latest_id ∧
    install cfgA envUpA false =
      { status := SyncStatus.upToDate, versionFile := some "v2",
        syncStarted := false, archiveFetchAttempted := false, cleaned := false,
        attemptedDownloads := 0, downloaded := 0, failed := 0 } ∧
    (install cfgA envUpA true).syncStarted = true :=
  ⟨rfl, (up_to_date_noop cfgA envUpA rfl).1, (up_to_date_noop cfgA envUpA rfl).2.1⟩

/-- Witness for C10: a file whose suffix is `".JAR"` (not the exact lowercase
`".jar"`) is untouched by the clean step, which is also a no-op on a missing
directory. -/
theorem clean_frame_witness :
    (⟨"B.JAR", true⟩ : Entry) ∈ modsListA ∧
    pathSuffix "B.JAR" ≠ ".jar" ∧
    clean_mods cfgA false none = none ∧
    (⟨"B.JAR", true⟩ : Entry) ∈ (clean_mods cfgA false (some modsListA)).getD [] :=
  ⟨by decide, by decide,
   (clean_frame cfgA false modsListA ⟨"B.JAR", true⟩ (by decide)
     (Or.inr (by decide))).1,
   (clean_frame cfgA false modsListA ⟨"B.JAR", true⟩ (by decide)
     (Or.inr (by decide))).2.2⟩

end Mrpack
